import Mathlib

/-!
Shallow embedding of the `hex-reader` repository (src/hex.rs, src/elf.rs).

Machine integers (`u8`, `u16`, `u32`) are modelled as `Nat`.  Rust `u32`
subtraction appears only where the source guarantees no underflow at the
inputs the theorems consider (and `Nat` subtraction is used there), and
`u32` addition overflow cannot occur at those inputs, so no explicit
`% 2^32` is needed in the statements below.  Fallible Rust code
(`eyre::Result`) becomes `Except`, and panics / diverging loops become
`Option` (`none` = abort or non-termination).
-/

/-- Inclusive address range, from `AddrRange` in src/hex.rs. -/
structure AddrRange where
  start : Nat
  «end» : Nat
deriving DecidableEq, Repr

/-- Point containment test, from `AddrRange::contains`. -/
def AddrRange.contains (r : AddrRange) (addr : Nat) : Bool :=
  decide (r.start ≤ addr ∧ r.«end» ≥ addr)

/-- Full-subset test, from `AddrRange::contains_range`. -/
def AddrRange.contains_range (r : AddrRange) (range : AddrRange) : Bool :=
  decide (r.start ≤ range.start ∧ r.«end» ≥ range.«end»)

/-- Overlap test, from `AddrRange::overlaps_range`: true when either endpoint
of `range` lies inside `r`. -/
def AddrRange.overlaps_range (r : AddrRange) (range : AddrRange) : Bool :=
  r.contains range.start || r.contains range.«end»

/-- Splitting at a point, from `AddrRange::split`.  The source panics when
`at <= self.start || at >= self.end`; the panic is modelled as `none`. -/
def AddrRange.split (r : AddrRange) (p : Nat) : Option (AddrRange × AddrRange) :=
  if p ≤ r.start ∨ p ≥ r.«end» then
    none
  else
    some (⟨r.start, p - 1⟩, ⟨p, r.«end»⟩)

/-- Size of a range, from `AddrRange::size` (`end - start + 1`). -/
def AddrRange.size (r : AddrRange) : Nat :=
  r.«end» - r.start + 1

/-- Translation of a range to a new base address, from `AddrRange::transpose`. -/
def AddrRange.transpose (r : AddrRange) (dest : Nat) : AddrRange :=
  if dest ≥ r.start then
    ⟨dest, r.«end» + (dest - r.start)⟩
  else
    ⟨dest, r.«end» - (r.start - dest)⟩

/-- One contiguous byte run from a single Data record, from `Data` in src/hex.rs. -/
structure Data where
  data : List Nat
  addr : Nat
deriving DecidableEq, Repr

/-- Start-Segment-Address payload, from `StartSegmentAddr` in src/hex.rs. -/
structure StartSegmentAddr where
  cs : Nat
  ip : Nat
deriving DecidableEq, Repr

/-- The parsed image, from `HexFile` in src/hex.rs. -/
structure HexFile where
  start : Option StartSegmentAddr
  data : List Data
deriving DecidableEq, Repr

/-- Address range of a chunk, from `Data::addr_range`. -/
def Data.addr_range (d : Data) : AddrRange :=
  ⟨d.addr, d.addr + d.data.length - 1⟩

/-- Chunk relocation, from `Data::transpose`: the source sets `self.addr = dest`
(the byte contents are unchanged). -/
def Data.transpose (d : Data) (dest : Nat) : Data :=
  ⟨d.data, dest⟩

/-- Loop body of `HexFile::address_ranges`: walks the remaining chunks with the
current run `[s, e]`, closing the run whenever the next chunk does not start at
exactly `e + 1`. -/
def addressRangesGo (s e : Nat) : List Data → List AddrRange
  | [] => [⟨s, e⟩]
  | d :: rest =>
    if d.addr ≠ e + 1 then
      ⟨s, e⟩ :: addressRangesGo d.addr (d.addr + d.data.length - 1) rest
    else
      addressRangesGo s (d.addr + d.data.length - 1) rest

/-- Maximal contiguous address ranges, from `HexFile::address_ranges`.  The
source calls `split_first().unwrap()`, panicking on an empty chunk list; the
panic is modelled as `none`. -/
def HexFile.address_ranges (h : HexFile) : Option (List AddrRange) :=
  match h.data with
  | [] => none
  | first :: rest =>
    some (addressRangesGo first.addr (first.addr + first.data.length - 1) rest)

/-- Concatenated bytes of every chunk fully contained in `range`, from
`HexFile::data_in_range`. -/
def HexFile.data_in_range (h : HexFile) (range : AddrRange) : List Nat :=
  h.data.foldl
    (fun acc d => if range.contains_range d.addr_range then acc ++ d.data else acc)
    []

/-- Entry address from the Start-Segment-Address record, from `HexFile::start_addr`. -/
def HexFile.start_addr (h : HexFile) : Option Nat :=
  h.start.map (fun ss => (ss.cs <<< 16) ||| ss.ip)

instance instDecEqExcept {ε α : Type} [DecidableEq ε] [DecidableEq α] :
    DecidableEq (Except ε α) := fun a b =>
  match a, b with
  | .error e1, .error e2 =>
    decidable_of_iff (e1 = e2) ⟨fun h => by rw [h], fun h => by injection h⟩
  | .ok a1, .ok a2 =>
    decidable_of_iff (a1 = a2) ⟨fun h => by rw [h], fun h => by injection h⟩
  | .error _, .ok _ => isFalse (fun h => by injection h)
  | .ok _, .error _ => isFalse (fun h => by injection h)

/-- Errors of the mutating model operation, from the two `eyre!` sites in
`HexFile::transpose`. -/
inductive ModelErr where
  | noRangeAt (addr : Nat)
  | overlapsExisting (dest existing : AddrRange)
deriving DecidableEq, Repr

/-- Range relocation, from `HexFile::transpose`.  The outer `Option` models the
panic of the internal `address_ranges()` call on an empty image; `Except`
models the `eyre::Result`.  On success the source rewrites the address of every
chunk whose address lies in the source range via `Data::transpose`. -/
def HexFile.transpose (h : HexFile) (start dest : Nat) : Option (Except ModelErr HexFile) :=
  match h.address_ranges with
  | none => none
  | some ranges =>
    match ranges.find? (fun x => decide (x.start = start)) with
    | none => some (.error (.noRangeAt start))
    | some src_range =>
      match ranges.find? (fun x => x.overlaps_range (src_range.transpose dest)) with
      | some overlap => some (.error (.overlapsExisting (src_range.transpose dest) overlap))
      | none =>
        some (.ok ⟨h.start,
          h.data.map (fun d => if src_range.contains d.addr then d.transpose dest else d)⟩)

/-- Value of one ASCII hex digit (`0-9`, `A-F`, `a-f`), as accepted by Rust's
`from_str_radix(_, 16)`. -/
def hexDigitVal? (c : Nat) : Option Nat :=
  if 48 ≤ c ∧ c ≤ 57 then some (c - 48)
  else if 65 ≤ c ∧ c ≤ 70 then some (c - 55)
  else if 97 ≤ c ∧ c ≤ 102 then some (c - 87)
  else none

/-- Accumulating loop of the radix-16 numeral parser. -/
def fromStrRadix16Digits : Nat → List Nat → Option Nat
  | acc, [] => some acc
  | acc, c :: rest =>
    match hexDigitVal? c with
    | some d => fromStrRadix16Digits (acc * 16 + d) rest
    | none => none

/-- Combined model of `from_utf8(bytes)?` followed by
`uN::from_str_radix(s, 16)?` as used in `Context::next_record`.  Rust's
`from_str_radix` accepts an optional leading `+` (byte 43) and rejects an empty
digit string.  Both the UTF-8 error and the non-hex-digit error are propagated
by the source with a bare `?` (no line annotation), and a byte sequence passes
both steps exactly when it is an optionally-`+`-prefixed nonempty run of ASCII
hex digits, so the two failure modes are modelled as the single unannotated
error `HexErr.badDigits`. -/
def fromStrRadix16 (s : List Nat) : Option Nat :=
  match s with
  | 43 :: rest =>
    match rest with
    | [] => none
    | _ => fromStrRadix16Digits 0 rest
  | [] => none
  | _ => fromStrRadix16Digits 0 s

/-- Model of Rust slice indexing `line.get(a..=b)` for `a ≤ b`: `Some` exactly
when `b` is in bounds. -/
def sliceGet (l : List Nat) (a b : Nat) : Option (List Nat) :=
  if b < l.length then some ((l.drop a).take (b - a + 1)) else none

/-- Model of `slice::chunks(2)`. -/
def chunksOf2 : List Nat → List (List Nat)
  | [] => []
  | [a] => [[a]]
  | a :: b :: rest => [a, b] :: chunksOf2 rest

/-- Names of the fixed-position fields read by `Context::next_record`, used to
distinguish the `eyre!("Line {}: no ... field", idx)` sites. -/
inductive FieldId where
  | kind
  | len
  | addr
  | cs
  | ip
  | addrHi
deriving DecidableEq, Repr

/-- Decoder errors, one constructor per `eyre!` site in `Context::next_record`
plus `badDigits` for the two un-annotated `?` propagations (`from_utf8` /
`from_str_radix` failures). -/
inductive HexErr where
  | unexpectedLineAfterEof
  | unexpectedEof
  | emptyLine (line : Nat)
  | noColon (line : Nat)
  | badDigits
  | missingField (line : Nat) (f : FieldId)
  | tooFewDataBytes (line : Nat) (expected got : Nat)
  | unknownKind (line : Nat) (kind : Nat)
deriving DecidableEq, Repr

/-- Line number carried by a decoder error, when the corresponding `eyre!`
message is annotated with one. -/
def HexErr.lineNo : HexErr → Option Nat
  | .emptyLine n => some n
  | .noColon n => some n
  | .missingField n _ => some n
  | .tooFewDataBytes n _ _ => some n
  | .unknownKind n _ => some n
  | .unexpectedLineAfterEof => none
  | .unexpectedEof => none
  | .badDigits => none

/-- Decoded record, from `enum Record` in src/hex.rs. -/
inductive Record where
  | data (d : Data)
  | eof
  | startSegmentAddr (s : StartSegmentAddr)
deriving DecidableEq, Repr

/-- Decoder state, from `struct Context` in src/hex.rs. -/
structure Context where
  buf : List Nat
  addr_hi : Option Nat
  eof : Bool
  line_idx : Nat
deriving DecidableEq, Repr

/-- Fresh decoder state, from `Context::new`. -/
def Context.new (buf : List Nat) : Context :=
  ⟨buf, none, false, 0⟩

/-- Line extraction, from `Context::next_line`.  Note that when the buffer
contains no newline byte the source returns the whole buffer as the line but
does NOT consume it (`self.buf` is left unchanged); this behaviour is
reproduced exactly. -/
def Context.next_line (c : Context) : Option ((Nat × List Nat) × Context) :=
  if c.buf = [] then none
  else
    match c.buf.findIdx? (fun x => decide (x = 10)) with
    | some i =>
      some ((c.line_idx + 1, c.buf.take i),
        ⟨c.buf.drop (i + 1), c.addr_hi, c.eof, c.line_idx + 1⟩)
    | none => some ((c.line_idx + 1, c.buf), ⟨c.buf, c.addr_hi, c.eof, c.line_idx + 1⟩)

/-- Buffer-nonempty test, from `Context::has_next_line`. -/
def Context.has_next_line (c : Context) : Bool :=
  decide (c.buf ≠ [])

/-- Parse one fixed-position ASCII-hex field: the
`uN::from_str_radix(from_utf8(line.get(a..=b).ok_or(eyre!(...))?)?, 16)?`
pattern repeated throughout `Context::next_record`. -/
def parseField (line : List Nat) (a b idx : Nat) (f : FieldId) : Except HexErr Nat :=
  match sliceGet line a b with
  | none => .error (.missingField idx f)
  | some s =>
    match fromStrRadix16 s with
    | none => .error .badDigits
    | some v => .ok v

/-- One step of the decoder, from `Context::next_record`. -/
def Context.next_record (c : Context) : Except HexErr (Option Record × Context) :=
  if c.eof then
    if c.has_next_line then .error .unexpectedLineAfterEof
    else .ok (none, c)
  else
    match c.next_line with
    | none => .error .unexpectedEof
    | some ((idx, line), c1) =>
      match line with
      | [] => .error (.emptyLine idx)
      | ch :: _ =>
        if ch ≠ 58 then .error (.noColon idx)
        else
          match parseField line 7 8 idx .kind with
          | .error e => .error e
          | .ok kind =>
            match kind with
            | 0 =>
              match parseField line 1 2 idx .len with
              | .error e => .error e
              | .ok len =>
                match parseField line 3 6 idx .addr with
                | .error e => .error e
                | .ok addr =>
                  match ((chunksOf2 (line.drop 9)).take len).mapM fromStrRadix16 with
                  | none => .error .badDigits
                  | some dataBytes =>
                    if dataBytes.length < len then
                      .error (.tooFewDataBytes idx len dataBytes.length)
                    else
                      .ok (some (.data ⟨dataBytes,
                        match c.addr_hi with
                        | some hi => (hi <<< 16) ||| addr
                        | none => addr⟩), c1)
            | 1 => .ok (some .eof, ⟨c1.buf, c1.addr_hi, true, c1.line_idx⟩)
            | 3 =>
              match parseField line 9 12 idx .cs with
              | .error e => .error e
              | .ok cs =>
                match parseField line 13 16 idx .ip with
                | .error e => .error e
                | .ok ip => .ok (some (.startSegmentAddr ⟨cs, ip⟩), c1)
            | 4 =>
              match parseField line 9 12 idx .addrHi with
              | .error e => .error e
              | .ok hi => .ok (none, ⟨c1.buf, some hi, c1.eof, c1.line_idx⟩)
            | k => .error (.unknownKind idx k)

/-- Comparison used by `data.sort_by(|l, r| l.addr.cmp(&r.addr))`. -/
def addrLe (l r : Data) : Prop :=
  l.addr ≤ r.addr

instance instDecAddrLe : DecidableRel addrLe := fun l r => Nat.decLe l.addr r.addr

instance instTotalAddrLe : IsTotal Data addrLe := ⟨fun l r => Nat.le_total l.addr r.addr⟩

instance instTransAddrLe : IsTrans Data addrLe := ⟨fun _ _ _ h1 h2 => Nat.le_trans h1 h2⟩

/-- Fuelled model of the record-accumulation loop of `Context::into_hex_file`.
`none` means the fuel ran out, which (with sufficient fuel) happens exactly
when the source loop diverges.  The final `data.sort_by(|l, r|
l.addr.cmp(&r.addr))` is a stable sort by address; it is modelled by the
(stable, structurally recursive) `List.insertionSort addrLe`, which computes
the same list as any other stable sort by the same key. -/
def intoHexFileAux : Nat → Context → Option StartSegmentAddr → List Data →
    Option (Except HexErr HexFile)
  | 0, _, _, _ => none
  | fuel + 1, c, start, dat =>
    match c.next_record with
    | .error e => some (.error e)
    | .ok (some .eof, _) => some (.ok ⟨start, dat.insertionSort addrLe⟩)
    | .ok (some (.data d), c1) => intoHexFileAux fuel c1 start (dat ++ [d])
    | .ok (some (.startSegmentAddr s), c1) => intoHexFileAux fuel c1 (some s) dat
    | .ok (none, c1) => intoHexFileAux fuel c1 start dat

/-- Full decoder, from `Context::into_hex_file` applied to `Context::new(buf)`.
Fuel `buf.length + 1` suffices for every terminating run of the source loop:
an iteration that neither errors nor breaks consumes at least one buffer byte,
except when the final, newline-less line yields a record — and in that case the
source loop re-reads the identical line forever, i.e. it diverges, which the
model reports as `none`. -/
def intoHexFile (buf : List Nat) : Option (Except HexErr HexFile) :=
  intoHexFileAux (buf.length + 1) (Context.new buf) none []

/-- Flash/data window, from `FLASH_DATA_RANGE` in src/elf.rs. -/
def FLASH_DATA_RANGE : AddrRange := ⟨0x00000000, 0x000000BF⟩

/-- Code window, from `CODE_RANGE` in src/elf.rs. -/
def CODE_RANGE : AddrRange := ⟨0x000000C0, 0x0003FFFF⟩

/-- Option-bytes window, from `OPT_RANGE` in src/elf.rs. -/
def OPT_RANGE : AddrRange := ⟨0x01010008, 0x01010033⟩

/-- SRAM window, from `SRAM_RANGE` in src/elf.rs. -/
def SRAM_RANGE : AddrRange := ⟨0x40000000, 0x400FFFFF⟩

/-- Vector-table boundary, from `VECTOR_TABLE_END` in src/elf.rs. -/
def VECTOR_TABLE_END : Nat := 0xC0

/-- Section classification, from `enum SectionKind` in src/elf.rs. -/
inductive SectionKind where
  | flash
  | code
  | opt
  | sram
  | strtab
deriving DecidableEq, Repr

/-- Classified section, from `struct SectionData` in src/elf.rs (names are
byte sequences). -/
structure SectionData where
  range : AddrRange
  kind : SectionKind
  name : List Nat
deriving DecidableEq, Repr

/-- Bytes of the section name `".flash"`. -/
def flashName : List Nat := [46, 102, 108, 97, 115, 104]

/-- Bytes of the section name `".text"`. -/
def textName : List Nat := [46, 116, 101, 120, 116]

/-- Bytes of the section name `".opt"`. -/
def optName : List Nat := [46, 111, 112, 116]

/-- Bytes of the section name `".data"`. -/
def dataName : List Nat := [46, 100, 97, 116, 97]

/-- Bytes of the section name `".shstrtab"`. -/
def shstrtabName : List Nat := [46, 115, 104, 115, 116, 114, 116, 97, 98]

/-- Window classification, from `range_to_section` in src/elf.rs; the
`unreachable!` panic on an unclassifiable range is modelled as `none`. -/
def range_to_section (range : AddrRange) : Option SectionData :=
  if FLASH_DATA_RANGE.contains_range range then some ⟨range, .flash, flashName⟩
  else if CODE_RANGE.contains_range range then some ⟨range, .code, textName⟩
  else if OPT_RANGE.contains_range range then some ⟨range, .opt, optName⟩
  else if SRAM_RANGE.contains_range range then some ⟨range, .sram, dataName⟩
  else none

/-- Range splitting and classification loop at the top of `to_elf_file`: a
range containing `VECTOR_TABLE_END` is split there (the `split` panic is
propagated as `none`), every other range is classified directly. -/
def sectionsOfRanges : List AddrRange → Option (List SectionData)
  | [] => some []
  | r :: rest =>
    if r.contains VECTOR_TABLE_END then
      match r.split VECTOR_TABLE_END with
      | none => none
      | some (before, after) =>
        match range_to_section before, range_to_section after, sectionsOfRanges rest with
        | some sb, some sa, some tail => some (sb :: sa :: tail)
        | _, _, _ => none
    else
      match range_to_section r, sectionsOfRanges rest with
      | some s, some tail => some (s :: tail)
      | _, _ => none

/-- ELF identification bytes, from `struct ElfIdent` in src/elf.rs (the Rust
field `class` is a Lean keyword, renamed to `cls`). -/
structure ElfIdent where
  magic : List Nat
  cls : Nat
  endian : Nat
  version : Nat
  abi : Nat
  abi_version : Nat
deriving DecidableEq, Repr

/-- ELF32 file header, from `struct ElfHeader` in src/elf.rs (the Rust field
`r#type` is renamed to `typ`). -/
structure ElfHeader where
  ident : ElfIdent
  typ : Nat
  machine : Nat
  version : Nat
  entry : Nat
  ph_off : Nat
  sh_off : Nat
  flags : Nat
  hdr_size : Nat
  ph_ent_size : Nat
  ph_num : Nat
  sh_ent_size : Nat
  sh_num : Nat
  sh_str_idx : Nat
deriving DecidableEq, Repr

/-- ELF32 section header, from `struct SectionHeader` in src/elf.rs. -/
structure SectionHeader where
  name : Nat
  typ : Nat
  flags : Nat
  addr : Nat
  offset : Nat
  size : Nat
  link : Nat
  info : Nat
  align : Nat
  ent_size : Nat
deriving DecidableEq, Repr

/-- Constant `ELFCLASS32` of the `object::elf` crate. -/
def ELFCLASS32 : Nat := 1

/-- Constant `ELFDATA2LSB` of the `object::elf` crate. -/
def ELFDATA2LSB : Nat := 1

/-- Constant `EV_CURRENT` of the `object::elf` crate. -/
def EV_CURRENT : Nat := 1

/-- Constant `ELFOSABI_SYSV` of the `object::elf` crate. -/
def ELFOSABI_SYSV : Nat := 0

/-- Constant `ET_EXEC` of the `object::elf` crate. -/
def ET_EXEC : Nat := 2

/-- Constant `EM_ARM` of the `object::elf` crate. -/
def EM_ARM : Nat := 40

/-- Constant `SHT_PROGBITS` of the `object::elf` crate. -/
def SHT_PROGBITS : Nat := 1

/-- Constant `SHT_STRTAB` of the `object::elf` crate. -/
def SHT_STRTAB : Nat := 3

/-- Constant `SHF_WRITE` of the `object::elf` crate. -/
def SHF_WRITE : Nat := 1

/-- Constant `SHF_ALLOC` of the `object::elf` crate. -/
def SHF_ALLOC : Nat := 2

/-- Constant `SHF_EXECINSTR` of the `object::elf` crate. -/
def SHF_EXECINSTR : Nat := 4

/-- Little-endian serialization of a `u16` field. -/
def u16le (n : Nat) : List Nat := [n % 256, n / 256 % 256]

/-- Little-endian serialization of a `u32` field. -/
def u32le (n : Nat) : List Nat :=
  [n % 256, n / 256 % 256, n / 65536 % 256, n / 16777216 % 256]

/-- Byte layout of `ElfIdent` as produced by `ob_to_slice` on the `repr(C)`
struct (4 magic bytes, five `u8` fields, 7 padding bytes — the source zeroes
the padding via `Default`). -/
def identBytes (i : ElfIdent) : List Nat :=
  i.magic ++ [i.cls, i.endian, i.version, i.abi, i.abi_version] ++ [0, 0, 0, 0, 0, 0, 0]

/-- Byte layout of `ElfHeader` as produced by `ob_to_slice` on the `repr(C)`
struct on a little-endian host (52 bytes, no interior padding). -/
def elfHeaderBytes (h : ElfHeader) : List Nat :=
  identBytes h.ident ++ u16le h.typ ++ u16le h.machine ++ u32le h.version ++
    u32le h.entry ++ u32le h.ph_off ++ u32le h.sh_off ++ u32le h.flags ++
    u16le h.hdr_size ++ u16le h.ph_ent_size ++ u16le h.ph_num ++
    u16le h.sh_ent_size ++ u16le h.sh_num ++ u16le h.sh_str_idx

/-- Byte layout of `SectionHeader` as produced by `ob_to_slice` (40 bytes). -/
def sectionHeaderBytes (s : SectionHeader) : List Nat :=
  u32le s.name ++ u32le s.typ ++ u32le s.flags ++ u32le s.addr ++ u32le s.offset ++
    u32le s.size ++ u32le s.link ++ u32le s.info ++ u32le s.align ++ u32le s.ent_size

/-- Section-header `type` field: the `matches!(kind, StrTab)` choice in the
section-header loop of `to_elf_file`. -/
def sectionType (k : SectionKind) : Nat :=
  match k with
  | .strtab => SHT_STRTAB
  | _ => SHT_PROGBITS

/-- Section-header `flags` field: the `match section.kind` in the
section-header loop of `to_elf_file`. -/
def sectionFlags (k : SectionKind) : Nat :=
  match k with
  | .flash => SHF_ALLOC
  | .code => SHF_ALLOC ||| SHF_EXECINSTR
  | .opt => SHF_ALLOC
  | .sram => SHF_ALLOC ||| SHF_WRITE
  | .strtab => 0

/-- Section-data emission loop of `to_elf_file`: appends each section's raw
bytes to the file and records each section's file offset. -/
def dataLoop (hex : HexFile) : List SectionData → List Nat → List Nat × List Nat
  | [], elf_data => (elf_data, [])
  | s :: rest, elf_data =>
    let off := elf_data.length
    let bytes := hex.data_in_range s.range
    let p := dataLoop hex rest (elf_data ++ bytes)
    (p.1, off :: p.2)

/-- String-table emission loop of `to_elf_file`: appends each null-terminated
section name and records each name's offset into the string table. -/
def nameLoop (start_off : Nat) : List SectionData → List Nat → List Nat × List Nat
  | [], elf_data => (elf_data, [])
  | s :: rest, elf_data =>
    let nameOff := elf_data.length - start_off
    let p := nameLoop start_off rest (elf_data ++ s.name ++ [0])
    (p.1, nameOff :: p.2)

/-- Section-header emission loop of `to_elf_file`, over each section paired
with its name offset and file offset. -/
def sectionHeaderLoop : List (SectionData × Nat × Nat) → List Nat
  | [] => []
  | (s, nameOff, off) :: rest =>
    sectionHeaderBytes
      ⟨nameOff, sectionType s.kind, sectionFlags s.kind,
        (if s.kind = SectionKind.strtab then 0 else s.range.start),
        off, s.range.size, 0, 0, 0, 0⟩ ++ sectionHeaderLoop rest

/-- In-memory model of `to_elf_file` in src/elf.rs, minus the file write: the
final (patched) header, the final section list (with the string-table
section's range rewritten to its measured length), and the complete output
byte stream.  `none` models the panics reachable from `to_elf_file`
(`address_ranges` on an empty image, `split` at a range endpoint, and the
`unreachable!` for an unclassifiable range). -/
def to_elf (hex : HexFile) : Option (ElfHeader × List SectionData × List Nat) :=
  match hex.address_ranges with
  | none => none
  | some addr_ranges =>
    match sectionsOfRanges addr_ranges with
    | none => none
    | some sections0 =>
      let entry_point := (hex.start_addr.getD 0) &&& 0xFFFFFFFE
      let p1 := dataLoop hex sections0 (List.replicate 52 0)
      let start_off := p1.1.length
      let section_offsets := p1.2 ++ [start_off]
      let sections1 := sections0 ++ [⟨⟨0, 0⟩, .strtab, shstrtabName⟩]
      let p2 := nameLoop start_off sections1 (p1.1 ++ [0])
      let name_section_len := sections1.foldl (fun acc s => acc + s.name.length + 1) 1
      let sections2 := sections0 ++ [⟨⟨0, name_section_len - 1⟩, .strtab, shstrtabName⟩]
      let sh_off := p2.1.length
      let shBytes := sectionHeaderLoop (sections2.zip (p2.2.zip section_offsets))
      let hdr : ElfHeader :=
        ⟨⟨[0x7F, 69, 76, 70], ELFCLASS32, ELFDATA2LSB, EV_CURRENT, ELFOSABI_SYSV, 0⟩,
          ET_EXEC, EM_ARM, EV_CURRENT, entry_point, 0, sh_off, 0, 52, 0, 0, 40,
          sections2.length, sections2.length - 1⟩
      some (hdr, sections2, elfHeaderBytes hdr ++ (p2.1 ++ shBytes).drop 52)

/-- Sortedness of the chunk list by ascending address, the `HexImage`
invariant the spec states for `chunks`. -/
def sortedByAddr (l : List Data) : Prop :=
  l.Pairwise addrLe

instance instDecSortedByAddr (l : List Data) : Decidable (sortedByAddr l) :=
  inferInstanceAs (Decidable (l.Pairwise addrLe))

/-- Membership of an address in a chunk's byte span. -/
def inChunk (c : Data) (a : Nat) : Prop :=
  c.addr ≤ a ∧ a < c.addr + c.data.length

/-- The set of addresses covered by a chunk list, as a predicate. -/
def chunksCover (l : List Data) (a : Nat) : Prop :=
  ∃ c ∈ l, inChunk c a

/-- Membership of an address in an inclusive address range. -/
def inRange (r : AddrRange) (a : Nat) : Prop :=
  r.start ≤ a ∧ a ≤ r.«end»

/-- The set of addresses covered by a range list, as a predicate. -/
def rangesCover (rs : List AddrRange) (a : Nat) : Prop :=
  ∃ r ∈ rs, inRange r a

/-- Pairwise address-disjointness of chunks (no shared address). -/
def chunksDisjoint (l : List Data) : Prop :=
  l.Pairwise (fun c d => ∀ a, ¬(inChunk c a ∧ inChunk d a))

/-- Pairwise address-disjointness of ranges (no shared address). -/
def rangesDisjoint (rs : List AddrRange) : Prop :=
  rs.Pairwise (fun r q => ∀ a, ¬(inRange r a ∧ inRange q a))

/-- Image with one derived range `0x0-0x7` made of two abutting chunks. -/
def hfC1 : HexFile := ⟨none, [⟨[1, 2, 3, 4], 0⟩, ⟨[5, 6, 7, 8], 4⟩]⟩

/-- Image with derived ranges `0x0-0x3` and `0xA-0xB`. -/
def c2file : HexFile := ⟨none, [⟨[1, 2, 3, 4], 0⟩, ⟨[9, 9], 10⟩]⟩

/-- Image with two one-byte chunks at addresses `0` and `100`. -/
def c5file : HexFile := ⟨none, [⟨[1], 0⟩, ⟨[2], 100⟩]⟩

/-- Image whose single derived range starts exactly at the vector-table
boundary `0xC0`. -/
def c3file : HexFile := ⟨none, [⟨[1, 2, 3, 4], 0xC0⟩]⟩

/-- ASCII bytes of `":020000040001F9\n:0400000000010203F7\n:00000001FF"`,
the end-to-end input of the spec. -/
def c6input : List Nat :=
  [58, 48, 50, 48, 48, 48, 48, 48, 52, 48, 48, 48, 49, 70, 57, 10,
   58, 48, 52, 48, 48, 48, 48, 48, 48, 48, 48, 48, 49, 48, 50, 48, 51, 70, 55, 10,
   58, 48, 48, 48, 48, 48, 48, 48, 49, 70, 70]

/-- ASCII bytes of `":0000000G"`: a line whose record-type field holds the
non-hex character `G`. -/
def c9input : List Nat := [58, 48, 48, 48, 48, 48, 48, 48, 71]

/-- ASCII bytes of `":00000000"`: a well-formed zero-length Data record line
with no trailing newline and no EOF record. -/
def c10input : List Nat := [58, 48, 48, 48, 48, 48, 48, 48, 48]

/-- Minimal image for the ELF-emission property: one 4-byte chunk at the
bottom of the flash window. -/
def c7file : HexFile := ⟨none, [⟨[1, 2, 3, 4], 0⟩]⟩

/-- C8: splitting a range at an interior point `p` yields `[start, p-1]` and
`[p, end]` whose sizes sum to the original size, and splitting fails (the
source panics) whenever `p ≤ start` or `p ≥ end`. -/
theorem claim_C8 (r : AddrRange) (p : Nat) :
    (r.start < p ∧ p < r.«end» →
      r.split p = some (⟨r.start, p - 1⟩, ⟨p, r.«end»⟩) ∧
        (AddrRange.mk r.start (p - 1)).size + (AddrRange.mk p r.«end»).size = r.size) ∧
    (p ≤ r.start ∨ r.«end» ≤ p → r.split p = none) := by
  constructor
  · rintro ⟨h1, h2⟩
    refine ⟨?_, ?_⟩
    · simp only [AddrRange.split]
      rw [if_neg (by omega)]
    · simp only [AddrRange.size]
      omega
  · intro hc
    simp only [AddrRange.split]
    rw [if_pos (by omega)]

/-- Witness for C8 at the range `0x0-0xA`: splitting at the interior point 5
succeeds with sizes `5 + 6 = 11`, splitting at the start point 0 fails. -/
theorem claim_C8_witness :
    (AddrRange.split ⟨0, 10⟩ 5 = some (⟨0, 4⟩, ⟨5, 10⟩) ∧
      (AddrRange.mk 0 4).size + (AddrRange.mk 5 10).size = (AddrRange.mk 0 10).size) ∧
    AddrRange.split ⟨0, 10⟩ 0 = none :=
  ⟨(claim_C8 ⟨0, 10⟩ 5).1 (by decide), (claim_C8 ⟨0, 10⟩ 0).2 (by decide)⟩

/-- C1 fails on the code: the image `hfC1` has the single derived range
`0x0-0x7` of size 8, and `transpose(0, 256)` succeeds, but because
`Data::transpose` writes the same destination address into every chunk of the
source range, the relocated image holds two chunks both at address 256 and
`address_ranges()` yields two size-4 ranges — no returned range of size 8
starts at the destination. -/
theorem claim_C1 :
    hfC1.address_ranges = some [⟨0, 7⟩] ∧
    hfC1.transpose 0 256 =
      some (.ok ⟨none, [⟨[1, 2, 3, 4], 256⟩, ⟨[5, 6, 7, 8], 256⟩]⟩) ∧
    (HexFile.mk none [⟨[1, 2, 3, 4], 256⟩, ⟨[5, 6, 7, 8], 256⟩]).address_ranges =
      some [⟨256, 259⟩, ⟨256, 259⟩] ∧
    (([AddrRange.mk 256 259, AddrRange.mk 256 259].filter
      (fun r => decide (r.size = 8))) = []) := by decide

/-- C3 fails on the code: the range `0xC0-0xC3` starts exactly at the
vector-table boundary, so per the claim it must pass through unchanged — but
`to_elf_file` tests inclusive `contains(0xC0)` and then calls `split(0xC0)`,
which panics because the split point equals the range's start. -/
theorem claim_C3 :
    c3file.address_ranges = some [⟨0xC0, 0xC3⟩] ∧
    AddrRange.contains ⟨0xC0, 0xC3⟩ VECTOR_TABLE_END = true ∧
    AddrRange.split ⟨0xC0, 0xC3⟩ VECTOR_TABLE_END = none ∧
    sectionsOfRanges [⟨0xC0, 0xC3⟩] = none ∧
    to_elf c3file = none := by decide

/-- C6: the three-line Extended-Segment-Address / Data / EOF input decodes to
a single chunk `[00, 01, 02, 03]` at absolute address `0x00010000`, and
`address_ranges()` on the decoded image is exactly `0x00010000-0x00010003`. -/
theorem claim_C6 :
    intoHexFile c6input = some (.ok ⟨none, [⟨[0, 1, 2, 3], 0x00010000⟩]⟩) ∧
    (HexFile.mk none [⟨[0, 1, 2, 3], 0x00010000⟩]).address_ranges =
      some [⟨0x00010000, 0x00010003⟩] := by decide

/-- C9 fails on the code: on the input line `":0000000G"` the record-type
field holds a non-hex character, and the resulting error is the bare
`from_str_radix` conversion (`badDigits`), which carries no line number. -/
theorem claim_C9_cex :
    intoHexFile c9input = some (.error HexErr.badDigits) ∧
    HexErr.lineNo HexErr.badDigits = none := by decide

/-- Helper: `next_line` always reports the line number `line_idx + 1`. -/
theorem next_line_idx (c : Context) (idx : Nat) (line : List Nat) (c1 : Context)
    (h : c.next_line = some ((idx, line), c1)) : idx = c.line_idx + 1 := by
  unfold Context.next_line at h
  split at h
  · exact Option.noConfusion h
  · split at h
    · injection h with h1
      injection h1 with h2 h3
      injection h2 with h4 h5
      exact h4.symm
    · injection h with h1
      injection h1 with h2 h3
      injection h2 with h4 h5
      exact h4.symm

/-- Helper: a failing field parse yields either the unannotated digit error
or the missing-field error annotated with the given line number. -/
theorem parseField_error (line : List Nat) (a b idx : Nat) (f : FieldId) (e : HexErr)
    (h : parseField line a b idx f = .error e) :
    e = .badDigits ∨ e = .missingField idx f := by
  unfold parseField at h
  split at h
  · injection h with h1
    exact Or.inr h1.symm
  · split at h
    · injection h with h1
      exact Or.inl h1.symm
    · exact Except.noConfusion h

/-- C9 amended: every annotated decoder error carries exactly the 1-based
index of the line just consumed (`line_idx + 1`); the other errors —
including the non-hex-digit / non-UTF-8 field failures — carry no line
number at all. -/
theorem claim_C9_amended (c : Context) (e : HexErr)
    (hx : c.next_record = .error e) :
    e.lineNo = none ∨ e.lineNo = some (c.line_idx + 1) := by
  unfold Context.next_record at hx
  split at hx
  · split at hx
    · injection hx with h1
      subst h1
      exact Or.inl rfl
    · exact Except.noConfusion hx
  · split at hx
    · injection hx with h1
      subst h1
      exact Or.inl rfl
    · rename_i idx line c1 heq
      have hidx := next_line_idx c idx line c1 heq
      subst hidx
      split at hx
      · injection hx with h1
        subst h1
        exact Or.inr rfl
      · split at hx
        · injection hx with h1
          subst h1
          exact Or.inr rfl
        · split at hx
          · rename_i e1 hpf
            injection hx with h1
            subst h1
            rcases parseField_error _ _ _ _ _ _ hpf with h | h <;> subst h
            · exact Or.inl rfl
            · exact Or.inr rfl
          · split at hx
            · split at hx
              · rename_i e1 hpf
                injection hx with h1
                subst h1
                rcases parseField_error _ _ _ _ _ _ hpf with h | h <;> subst h
                · exact Or.inl rfl
                · exact Or.inr rfl
              · split at hx
                · rename_i e1 hpf
                  injection hx with h1
                  subst h1
                  rcases parseField_error _ _ _ _ _ _ hpf with h | h <;> subst h
                  · exact Or.inl rfl
                  · exact Or.inr rfl
                · split at hx
                  · injection hx with h1
                    subst h1
                    exact Or.inl rfl
                  · split at hx
                    · injection hx with h1
                      subst h1
                      exact Or.inr rfl
                    · exact Except.noConfusion hx
            · exact Except.noConfusion hx
            · split at hx
              · rename_i e1 hpf
                injection hx with h1
                subst h1
                rcases parseField_error _ _ _ _ _ _ hpf with h | h <;> subst h
                · exact Or.inl rfl
                · exact Or.inr rfl
              · split at hx
                · rename_i e1 hpf
                  injection hx with h1
                  subst h1
                  rcases parseField_error _ _ _ _ _ _ hpf with h | h <;> subst h
                  · exact Or.inl rfl
                  · exact Or.inr rfl
                · exact Except.noConfusion hx
            · split at hx
              · rename_i e1 hpf
                injection hx with h1
                subst h1
                rcases parseField_error _ _ _ _ _ _ hpf with h | h <;> subst h
                · exact Or.inl rfl
                · exact Or.inr rfl
              · exact Except.noConfusion hx
            · injection hx with h1
              subst h1
              exact Or.inr rfl

/-- Witness for the amended C9: the one-byte-short line `":0"` fails with a
missing record-type field annotated with line number 1. -/
theorem claim_C9_amended_witness :
    HexErr.lineNo (HexErr.missingField 1 FieldId.kind) = none ∨
      HexErr.lineNo (HexErr.missingField 1 FieldId.kind) = some (Context.line_idx (Context.new [58, 48]) + 1) :=
  claim_C9_amended (Context.new [58, 48]) (HexErr.missingField 1 FieldId.kind) (by decide)

/-- Helper: a successful run of the `into_hex_file` loop always produces its
chunk list through the final stable sort by address. -/
theorem intoHexFileAux_sorted (fuel : Nat) :
    ∀ (c : Context) (st : Option StartSegmentAddr) (dat : List Data) (h : HexFile),
      intoHexFileAux fuel c st dat = some (Except.ok h) →
      ∃ l, h.data = List.insertionSort addrLe l := by
  induction fuel with
  | zero => intro c st dat h hx; simp [intoHexFileAux] at hx
  | succ n ih =>
    intro c st dat h hx
    unfold intoHexFileAux at hx
    split at hx
    · simp at hx
    · refine ⟨dat, ?_⟩
      injection hx with hx1
      injection hx1 with hx2
      rw [← hx2]
    · exact ih _ _ _ _ hx
    · exact ih _ _ _ _ hx
    · exact ih _ _ _ _ hx

/-- C5 fails on the code: transposing the range at 0 of `c5file` to 200
succeeds, but the resulting chunk list `[addr 200, addr 100]` is no longer
sorted ascending by address — `HexFile::transpose` rewrites addresses in
place and never re-sorts. -/
theorem claim_C5_cex :
    c5file.transpose 0 200 = some (.ok ⟨none, [⟨[1], 200⟩, ⟨[2], 100⟩]⟩) ∧
    ¬ sortedByAddr [Data.mk [1] 200, Data.mk [2] 100] := by
  exact ⟨by decide, by decide⟩

/-- C5 amended: every `HexImage` produced by parsing has chunks sorted
ascending by address (a successful `transpose` does not preserve this). -/
theorem claim_C5_amended (buf : List Nat) (h : HexFile)
    (hp : intoHexFile buf = some (Except.ok h)) : sortedByAddr h.data := by
  unfold intoHexFile at hp
  obtain ⟨l, hl⟩ := intoHexFileAux_sorted _ _ _ _ _ hp
  rw [sortedByAddr, hl]
  exact List.sorted_insertionSort addrLe l

/-- Witness for the amended C5: the parsed end-to-end input has its single
chunk list sorted. -/
theorem claim_C5_amended_witness :
    sortedByAddr (HexFile.mk none [⟨[0, 1, 2, 3], 0x00010000⟩]).data :=
  claim_C5_amended c6input ⟨none, [⟨[0, 1, 2, 3], 0x00010000⟩]⟩ (by decide)

/-- C2 fails on the code: in `c2file` (ranges `0x0-0x3` and `0xA-0xB`),
transposing the range at 0 to 9 gives the destination range `0x9-0xC`, which
shares addresses `0xA` and `0xB` with the existing range `0xA-0xB`; yet
`overlaps_range` only tests the destination's endpoints, finds nothing, and
the transpose succeeds and mutates the image. -/
theorem claim_C2_cex :
    c2file.address_ranges = some [⟨0, 3⟩, ⟨10, 11⟩] ∧
    AddrRange.transpose ⟨0, 3⟩ 9 = ⟨9, 12⟩ ∧
    AddrRange.contains ⟨9, 12⟩ 10 = true ∧
    AddrRange.contains ⟨10, 11⟩ 10 = true ∧
    c2file.transpose 0 9 = some (.ok ⟨none, [⟨[1, 2, 3, 4], 9⟩, ⟨[9, 9], 10⟩]⟩) := by
  decide

/-- C2 amended: when some existing range contains an endpoint of the computed
destination range — the only overlaps `overlaps_range` detects — `transpose`
returns the overlap error (so the image is left unchanged, the check
preceding any mutation). -/
theorem claim_C2_amended (h : HexFile) (start dest : Nat) (ranges : List AddrRange)
    (src : AddrRange)
    (hr : h.address_ranges = some ranges)
    (hs : ranges.find? (fun x => decide (x.start = start)) = some src)
    (hov : ∃ r ∈ ranges, r.overlaps_range (src.transpose dest) = true) :
    ∃ ov ∈ ranges, ov.overlaps_range (src.transpose dest) = true ∧
      h.transpose start dest =
        some (.error (.overlapsExisting (src.transpose dest) ov)) := by
  obtain ⟨r, hrmem, hrov⟩ := hov
  have hsome : (ranges.find? (fun x => x.overlaps_range (src.transpose dest))).isSome := by
    rw [List.find?_isSome]
    exact ⟨r, hrmem, hrov⟩
  obtain ⟨ov, hfind⟩ := Option.isSome_iff_exists.mp hsome
  have hovp := List.find?_some hfind
  refine ⟨ov, List.mem_of_find?_eq_some hfind, hovp, ?_⟩
  unfold HexFile.transpose
  rw [hr]
  simp only [hs, hfind]

/-- Witness for the amended C2: transposing the range at 0 of `c2file` to 2
has destination range `0x2-0x5`, whose start lies inside the source range's
own old position `0x0-0x3`, and the call errors out with that overlap. -/
theorem claim_C2_amended_witness :
    ∃ ov ∈ [AddrRange.mk 0 3, AddrRange.mk 10 11],
      ov.overlaps_range (AddrRange.transpose ⟨0, 3⟩ 2) = true ∧
        c2file.transpose 0 2 =
          some (.error (.overlapsExisting (AddrRange.transpose ⟨0, 3⟩ 2) ov)) :=
  claim_C2_amended c2file 0 2 [⟨0, 3⟩, ⟨10, 11⟩] ⟨0, 3⟩ (by decide) (by decide)
    ⟨⟨0, 3⟩, by decide, by decide⟩

/-- Helper: on the buffer `":00000000"` — a well-formed Data record line with
no trailing newline — `next_line` never consumes the buffer, so the decoder
loop re-reads the same line forever; under every fuel the model returns
`none`. -/
theorem c10aux (fuel : Nat) :
    ∀ (ah : Option Nat) (idx : Nat) (st : Option StartSegmentAddr) (dat : List Data),
      intoHexFileAux fuel ⟨c10input, ah, false, idx⟩ st dat = none := by
  induction fuel with
  | zero => intro ah idx st dat; rfl
  | succ n ih =>
    intro ah idx st dat
    have hrec : Context.next_record ⟨c10input, ah, false, idx⟩ =
        Except.ok (some (Record.data ⟨[],
          (match ah with | some hi => (hi <<< 16) ||| 0 | none => 0)⟩),
          ⟨c10input, ah, false, idx + 1⟩) := by
      cases ah <;> rfl
    unfold intoHexFileAux
    rw [hrec]
    exact ih ah (idx + 1) st _

/-- C7: for any image holding exactly one 4-byte chunk lying entirely inside
the flash window, the emitted byte stream starts with the ELF magic
`7F 45 4C 46`, the header records class `ELFCLASS32` and machine `EM_ARM`,
and the section table describes exactly two sections: one `PROGBITS` section
with the flash name `".flash"` and one `STRTAB` section. -/
theorem claim_C7 (start : Option StartSegmentAddr) (addr : Nat) (bytes : List Nat)
    (hlen : bytes.length = 4) (haddr : addr + 3 ≤ 0xBF) :
    ∃ hdr sections out,
      to_elf ⟨start, [⟨bytes, addr⟩]⟩ = some (hdr, sections, out) ∧
      out.take 4 = [0x7F, 0x45, 0x4C, 0x46] ∧
      hdr.ident.cls = ELFCLASS32 ∧
      hdr.machine = EM_ARM ∧
      hdr.sh_num = 2 ∧
      sections.map (fun s => (sectionType s.kind, s.name)) =
        [(SHT_PROGBITS, flashName), (SHT_STRTAB, shstrtabName)] := by
  have hrange : (HexFile.mk start [⟨bytes, addr⟩]).address_ranges = some [⟨addr, addr + 3⟩] := by
    show some [AddrRange.mk addr (addr + bytes.length - 1)] =
      some [AddrRange.mk addr (addr + 3)]
    rw [hlen, (by omega : addr + 4 - 1 = addr + 3)]
  have hcont : AddrRange.contains ⟨addr, addr + 3⟩ VECTOR_TABLE_END = false := by
    unfold AddrRange.contains VECTOR_TABLE_END
    rw [decide_eq_false_iff_not]
    show ¬(addr ≤ 192 ∧ 192 ≤ addr + 3)
    omega
  have hfl : FLASH_DATA_RANGE.contains_range ⟨addr, addr + 3⟩ = true := by
    unfold AddrRange.contains_range
    rw [decide_eq_true_eq]
    exact ⟨Nat.zero_le addr, by show addr + 3 ≤ 191; omega⟩
  have hsec : sectionsOfRanges [⟨addr, addr + 3⟩] =
      some [⟨⟨addr, addr + 3⟩, .flash, flashName⟩] := by
    unfold sectionsOfRanges
    rw [hcont]
    simp only [Bool.false_eq_true, if_false]
    unfold range_to_section
    rw [hfl]
    simp [sectionsOfRanges]
  have hdir : (HexFile.mk start [⟨bytes, addr⟩]).data_in_range ⟨addr, addr + 3⟩ = bytes := by
    unfold HexFile.data_in_range Data.addr_range
    have h1 : AddrRange.contains_range ⟨addr, addr + 3⟩ ⟨addr, addr + bytes.length - 1⟩ = true := by
      unfold AddrRange.contains_range
      rw [decide_eq_true_eq]
      show addr ≤ addr ∧ addr + bytes.length - 1 ≤ addr + 3
      omega
    simp [h1]
  simp only [to_elf, hrange, hsec, hdir]
  simp [dataLoop, nameLoop, sectionHeaderLoop, hdir, hlen]
  refine ⟨_, _, _, ⟨rfl, rfl, rfl⟩, ?_, rfl, rfl, rfl, ?_⟩
  · simp [elfHeaderBytes, identBytes]
  · rfl

/-- Witness for C7 at the concrete image `c7file` (one chunk `[1,2,3,4]` at
address 0). -/
theorem claim_C7_witness :
    ∃ hdr sections out,
      to_elf c7file = some (hdr, sections, out) ∧
      out.take 4 = [0x7F, 0x45, 0x4C, 0x46] ∧
      hdr.ident.cls = ELFCLASS32 ∧
      hdr.machine = EM_ARM ∧
      hdr.sh_num = 2 ∧
      sections.map (fun s => (sectionType s.kind, s.name)) =
        [(SHT_PROGBITS, flashName), (SHT_STRTAB, shstrtabName)] :=
  claim_C7 none 0 [1, 2, 3, 4] (by decide) (by decide)

/-- C10 fails on the code at `":00000000"`: a buffer with no EOF record whose
final (newline-less) line is a valid Data record makes the parse loop forever
rather than return an error — under every fuel the model yields neither an
image nor an error. -/
theorem claim_C10 :
    (∀ (fuel : Nat) (ah : Option Nat) (idx : Nat) (st : Option StartSegmentAddr)
      (dat : List Data),
        intoHexFileAux fuel ⟨c10input, ah, false, idx⟩ st dat = none) ∧
    intoHexFile c10input = none :=
  ⟨fun fuel => c10aux fuel, c10aux 10 none 0 none []⟩

/-- Helper: a sorted, disjoint pair of nonempty chunks is separated: the
second chunk starts past the end of the first. -/
theorem chunk_sep (d c : Data) (hle : addrLe d c)
    (hdj : ∀ a, ¬(inChunk d a ∧ inChunk c a))
    (_hd : d.data ≠ []) (hc : c.data ≠ []) :
    d.addr + d.data.length ≤ c.addr := by
  by_contra hlt
  push_neg at hlt
  have h1 : 0 < c.data.length := List.length_pos.mpr hc
  have h2 : d.addr ≤ c.addr := hle
  exact hdj c.addr ⟨⟨h2, hlt⟩, ⟨Nat.le_refl _, by omega⟩⟩

/-- Helper: specification of the `address_ranges` loop on a sorted, disjoint,
nonempty-chunk tail lying strictly past the current run `[s, e]`: the
produced ranges cover exactly `[s, e]` plus the tail's chunk spans, they are
pairwise disjoint, and each produced range is well-formed and starts at or
after `s`. -/
theorem addressRangesGo_spec :
    ∀ (rest : List Data) (s e : Nat),
      s ≤ e →
      (∀ c ∈ rest, e < c.addr) →
      rest.Pairwise addrLe →
      (∀ c ∈ rest, c.data ≠ []) →
      chunksDisjoint rest →
      (∀ a, rangesCover (addressRangesGo s e rest) a ↔
        ((s ≤ a ∧ a ≤ e) ∨ chunksCover rest a)) ∧
      rangesDisjoint (addressRangesGo s e rest) ∧
      (∀ r ∈ addressRangesGo s e rest, s ≤ r.start ∧ r.start ≤ r.«end») := by
  intro rest
  induction rest with
  | nil =>
    intro s e hse _ _ _ _
    refine ⟨?_, ?_, ?_⟩
    · intro a
      simp [addressRangesGo, rangesCover, chunksCover, inRange]
    · simp [addressRangesGo, rangesDisjoint]
    · intro r hr
      simp [addressRangesGo] at hr
      subst hr
      exact ⟨Nat.le_refl _, hse⟩
  | cons d rest ih =>
    intro s e hse hgt hsort hcne hdisj
    have hdne : d.data ≠ [] := hcne d (List.mem_cons_self d rest)
    have hdlen : 0 < d.data.length := List.length_pos.mpr hdne
    have hrec_inv : ∀ c ∈ rest, (d.addr + d.data.length - 1) < c.addr := by
      intro c hc
      have := chunk_sep d c (List.rel_of_pairwise_cons hsort hc)
        (List.rel_of_pairwise_cons hdisj hc) hdne (hcne c (List.mem_cons_of_mem d hc))
      omega
    have hsort2 : rest.Pairwise addrLe := List.Pairwise.of_cons hsort
    have hcne2 : ∀ c ∈ rest, c.data ≠ [] := fun c hc => hcne c (List.mem_cons_of_mem d hc)
    have hdisj2 : chunksDisjoint rest := List.Pairwise.of_cons hdisj
    have hdgt : e < d.addr := hgt d (List.mem_cons_self d rest)
    by_cases hda : d.addr = e + 1
    · have hgo : addressRangesGo s e (d :: rest) =
          addressRangesGo s (d.addr + d.data.length - 1) rest := by
        simp only [addressRangesGo]
        rw [if_neg (by omega)]
      obtain ⟨ihcov, ihdisj, ihlb⟩ := ih s (d.addr + d.data.length - 1) (by omega)
        hrec_inv hsort2 hcne2 hdisj2
      refine ⟨?_, ?_, ?_⟩
      · intro a
        rw [hgo, ihcov]
        constructor
        · rintro (⟨h1, h2⟩ | hc)
          · by_cases ha : a ≤ e
            · exact Or.inl ⟨h1, ha⟩
            · exact Or.inr ⟨d, List.mem_cons_self d rest, by unfold inChunk; omega⟩
          · obtain ⟨c, hcmem, hcin⟩ := hc
            exact Or.inr ⟨c, List.mem_cons_of_mem d hcmem, hcin⟩
        · rintro (⟨h1, h2⟩ | hc)
          · exact Or.inl ⟨h1, by omega⟩
          · obtain ⟨c, hcmem, hcin⟩ := hc
            rcases List.mem_cons.mp hcmem with rfl | hcmem2
            · exact Or.inl (by unfold inChunk at hcin; omega)
            · exact Or.inr ⟨c, hcmem2, hcin⟩
      · rw [hgo]
        exact ihdisj
      · intro r hr
        rw [hgo] at hr
        exact ihlb r hr
    · have hgap : e + 1 < d.addr := by omega
      have hgo : addressRangesGo s e (d :: rest) =
          ⟨s, e⟩ :: addressRangesGo d.addr (d.addr + d.data.length - 1) rest := by
        simp only [addressRangesGo]
        rw [if_pos hda]
      obtain ⟨ihcov, ihdisj, ihlb⟩ := ih d.addr (d.addr + d.data.length - 1) (by omega)
        hrec_inv hsort2 hcne2 hdisj2
      refine ⟨?_, ?_, ?_⟩
      · intro a
        rw [hgo]
        constructor
        · rintro ⟨r, hrmem, hrin⟩
          rcases List.mem_cons.mp hrmem with rfl | hrmem2
          · exact Or.inl hrin
          · have hcov : rangesCover
                (addressRangesGo d.addr (d.addr + d.data.length - 1) rest) a :=
              ⟨r, hrmem2, hrin⟩
            rw [ihcov] at hcov
            rcases hcov with ⟨h1, h2⟩ | hc
            · exact Or.inr ⟨d, List.mem_cons_self d rest, by unfold inChunk; omega⟩
            · obtain ⟨c, hcmem, hcin⟩ := hc
              exact Or.inr ⟨c, List.mem_cons_of_mem d hcmem, hcin⟩
        · rintro (⟨h1, h2⟩ | hc)
          · exact ⟨⟨s, e⟩, List.mem_cons_self _ _, h1, h2⟩
          · obtain ⟨c, hcmem, hcin⟩ := hc
            rcases List.mem_cons.mp hcmem with rfl | hcmem2
            · have hcov : rangesCover
                  (addressRangesGo c.addr (c.addr + c.data.length - 1) rest) a := by
                rw [ihcov]
                exact Or.inl (by unfold inChunk at hcin; omega)
              obtain ⟨r, hrmem, hrin⟩ := hcov
              exact ⟨r, List.mem_cons_of_mem _ hrmem, hrin⟩
            · have hcov : rangesCover
                  (addressRangesGo d.addr (d.addr + d.data.length - 1) rest) a := by
                rw [ihcov]
                exact Or.inr ⟨c, hcmem2, hcin⟩
              obtain ⟨r, hrmem, hrin⟩ := hcov
              exact ⟨r, List.mem_cons_of_mem _ hrmem, hrin⟩
      · rw [hgo]
        refine List.Pairwise.cons ?_ ihdisj
        rintro r hrmem a ⟨hin1, hin2⟩
        obtain ⟨hlb, _⟩ := ihlb r hrmem
        have h1 : s ≤ a ∧ a ≤ e := hin1
        have h2 : r.start ≤ a ∧ a ≤ r.«end» := hin2
        omega
      · intro r hrmem
        rw [hgo] at hrmem
        rcases List.mem_cons.mp hrmem with rfl | hrmem2
        · exact ⟨Nat.le_refl _, hse⟩
        · obtain ⟨h1, h2⟩ := ihlb r hrmem2
          exact ⟨by omega, h2⟩

/-- C4: for every successfully decoded input whose chunks are pairwise
non-overlapping and non-empty (and at least one chunk exists, the
precondition of `address_ranges`), the derived ranges cover exactly the
addresses covered by the chunks, and no two derived ranges share an
address. -/
theorem claim_C4 (buf : List Nat) (h : HexFile)
    (hp : intoHexFile buf = some (Except.ok h))
    (hne : h.data ≠ [])
    (hcne : ∀ c ∈ h.data, c.data ≠ [])
    (hdisj : chunksDisjoint h.data) :
    ∃ rs, h.address_ranges = some rs ∧
      (∀ a, rangesCover rs a ↔ chunksCover h.data a) ∧
      rangesDisjoint rs := by
  have hsorted : h.data.Pairwise addrLe := by
    unfold intoHexFile at hp
    obtain ⟨l, hl⟩ := intoHexFileAux_sorted _ _ _ _ _ hp
    rw [hl]
    exact List.sorted_insertionSort addrLe l
  obtain ⟨hstart, hdata⟩ := h
  cases hdata with
  | nil => exact absurd rfl hne
  | cons first rest =>
    replace hsorted : (first :: rest).Pairwise addrLe := hsorted
    replace hcne : ∀ c ∈ first :: rest, c.data ≠ [] := hcne
    replace hdisj : chunksDisjoint (first :: rest) := hdisj
    have hfne : first.data ≠ [] := hcne first (List.mem_cons_self _ _)
    have hflen : 0 < first.data.length := List.length_pos.mpr hfne
    have hgt : ∀ c ∈ rest, first.addr + first.data.length - 1 < c.addr := by
      intro c hc
      have := chunk_sep first c (List.rel_of_pairwise_cons hsorted hc)
        (List.rel_of_pairwise_cons hdisj hc) hfne (hcne c (List.mem_cons_of_mem _ hc))
      omega
    obtain ⟨ihcov, ihdisj, _⟩ := addressRangesGo_spec rest first.addr
      (first.addr + first.data.length - 1) (by omega) hgt (List.Pairwise.of_cons hsorted)
      (fun c hc => hcne c (List.mem_cons_of_mem _ hc)) (List.Pairwise.of_cons hdisj)
    refine ⟨addressRangesGo first.addr (first.addr + first.data.length - 1) rest,
      ?_, ?_, ihdisj⟩
    · show HexFile.address_ranges ⟨hstart, first :: rest⟩ = _
      simp only [HexFile.address_ranges]
    · intro a
      show rangesCover _ a ↔ chunksCover (first :: rest) a
      rw [ihcov]
      constructor
      · rintro (⟨h1, h2⟩ | hc)
        · exact ⟨first, List.mem_cons_self _ _, by unfold inChunk; omega⟩
        · obtain ⟨c, hcmem, hcin⟩ := hc
          exact ⟨c, List.mem_cons_of_mem _ hcmem, hcin⟩
      · rintro ⟨c, hcmem, hcin⟩
        rcases List.mem_cons.mp hcmem with rfl | h2
        · exact Or.inl (by unfold inChunk at hcin; omega)
        · exact Or.inr ⟨c, h2, hcin⟩

/-- Witness for C4 at the parsed end-to-end input: its single chunk is
non-empty and trivially non-overlapping. -/
theorem claim_C4_witness :
    ∃ rs, (HexFile.mk none [⟨[0, 1, 2, 3], 0x00010000⟩]).address_ranges = some rs ∧
      (∀ a, rangesCover rs a ↔
        chunksCover (HexFile.mk none [⟨[0, 1, 2, 3], 0x00010000⟩]).data a) ∧
      rangesDisjoint rs :=
  claim_C4 c6input ⟨none, [⟨[0, 1, 2, 3], 0x00010000⟩]⟩ (by decide) (by decide)
    (by decide) (by simp [chunksDisjoint])
